import Mathlib

/-!
Verification of the clinical data warehouse core (patient visit registry,
note index, record store, credential check) against its specification.

The Python source is shallowly embedded:
  - a Python dict loaded from a CSV row becomes an association list with
    string keys, in insertion order (keys are unique in a dict; theorems
    carry a no-duplicate hypothesis where it matters);
  - datetime.strptime with the format string of four-digit year, dash,
    month, dash, day is modelled by parseDate below, following the regular
    expression CPython builds for that format (the model restricts digits
    to ASCII; CPython also admits other Unicode decimal digits);
  - raised exceptions become the error case of Except;
  - the on-disk CSV file is modelled at the level the csv module presents:
    a header record plus data records of string fields (the textual
    quoting layer of the csv module round-trips such records and is
    abstracted away);
  - clock and uuid values are passed as explicit parameters.
-/

namespace ClinicalDW

/-- A Python value stored in a row dictionary: either a string field, a
parsed datetime (used only for the internal helper field of get_patient,
encoded as year*10000 + month*100 + day so that the numeric order agrees
with datetime order), or Python None (produced by csv.DictReader for a
short data record). -/
inductive Value where
  | str (s : String)
  | date (n : Nat)
  | pynone
deriving DecidableEq, Repr

/-- One row dictionary: association list in insertion order. -/
abbrev Row := List (String × Value)

/-- Python dict assignment d[k] = v: replaces the value in place when the
key is present (its position is kept), otherwise appends the pair. -/
def assocSet {β : Type} (m : List (String × β)) (k : String) (v : β) :
    List (String × β) :=
  if (List.lookup k m).isSome then
    m.map (fun p => if p.1 = k then (p.1, v) else p)
  else m ++ [(k, v)]

/-- Python del d[k] (callers only use it with the key present). -/
def assocDel {β : Type} (m : List (String × β)) (k : String) :
    List (String × β) :=
  m.filter (fun p => decide (p.1 ≠ k))

/-- Numeric value of an ASCII digit character. -/
def digitVal (c : Char) : Nat := c.toNat - '0'.toNat

/-- ASCII digit test (backslash-d of the CPython strptime regex,
restricted to ASCII). -/
def isDigitCh (c : Char) : Bool := decide ('0' ≤ c) && decide (c ≤ '9')

/-- Inclusive character range test. -/
def chBetween (lo c hi : Char) : Bool := decide (lo ≤ c) && decide (c ≤ hi)

/-- Split a character list at every dash, like the Python str.split
method with a one-character separator (adjacent dashes produce empty
groups). -/
def splitDashes (cs : List Char) : List (List Char) :=
  match cs with
  | [] => [[]]
  | c :: rest =>
    let r := splitDashes rest
    if c = '-' then [] :: r
    else
      match r with
      | g :: gs => (c :: g) :: gs
      | [] => [[c]]

/-- The year group of the strptime format: exactly four digits. -/
def yearOf? (s : List Char) : Option Nat :=
  match s with
  | [a, b, c, d] =>
    if isDigitCh a && isDigitCh b && isDigitCh c && isDigitCh d then
      some (digitVal a * 1000 + digitVal b * 100 + digitVal c * 10 + digitVal d)
    else none
  | _ => none

/-- The month group of the strptime format: 10 to 12, or 01 to 09, or a
single digit 1 to 9. -/
def monthOf? (s : List Char) : Option Nat :=
  match s with
  | [c] => if chBetween '1' c '9' then some (digitVal c) else none
  | [c1, c2] =>
    if c1 = '1' && chBetween '0' c2 '2' then some (10 + digitVal c2)
    else if c1 = '0' && chBetween '1' c2 '9' then some (digitVal c2)
    else none
  | _ => none

/-- The day group of the strptime format: 30 or 31, or 10 to 29, or 01 to
09, or a single digit 1 to 9, or a space followed by a digit 1 to 9. -/
def dayOf? (s : List Char) : Option Nat :=
  match s with
  | [c] => if chBetween '1' c '9' then some (digitVal c) else none
  | [c1, c2] =>
    if c1 = '3' && chBetween '0' c2 '1' then some (30 + digitVal c2)
    else if chBetween '1' c1 '2' && isDigitCh c2 then
      some (digitVal c1 * 10 + digitVal c2)
    else if c1 = '0' && chBetween '1' c2 '9' then some (digitVal c2)
    else if c1 = ' ' && chBetween '1' c2 '9' then some (digitVal c2)
    else none
  | _ => none

/-- Gregorian leap year rule, as in the datetime module. -/
def isLeapYear (y : Nat) : Bool :=
  y % 4 == 0 && (y % 100 != 0 || y % 400 == 0)

/-- Days in a month, as validated by the datetime constructor. -/
def daysInMonth (y m : Nat) : Nat :=
  if m = 2 then (if isLeapYear y then 29 else 28)
  else if m = 4 ∨ m = 6 ∨ m = 9 ∨ m = 11 then 30
  else 31

/-- datetime.strptime of a string against the four-digit-year, month, day
format: the three dash-separated groups must each match their regex
fragment with nothing left over, and the datetime constructor then
requires the year to be at least 1 and the day to fit the month. On
success the date is encoded as year*10000 + month*100 + day. -/
def parseDate (s : String) : Option Nat :=
  match splitDashes s.data with
  | [ys, ms, ds] => do
    let y ← yearOf? ys
    let m ← monthOf? ms
    let d ← dayOf? ds
    if 1 ≤ y ∧ d ≤ daysInMonth y m then some (y * 10000 + m * 100 + d)
    else none
  | _ => none

example : parseDate "2023-05-01" = some 20230501 := by decide
example : parseDate "2023-05-0" = none := by decide
example : parseDate "2023-5-1" = some 20230501 := by decide
example : parseDate "2023-02-30" = none := by decide
example : parseDate "2024-02-29" = some 20240229 := by decide
example : parseDate "0000-01-01" = none := by decide
example : parseDate "2023-05-01 09:00" = none := by decide

/-! ## Patient visit registry (patients.py) -/

/-- The comparison p.get(PatientID) == patient_id of get_patient: true
exactly when the key is present and holds that string (a missing key
yields Python None, which is unequal to any string; a datetime value is
likewise unequal). -/
def matchesPid (pid : String) (r : Row) : Bool :=
  decide (List.lookup "PatientID" r = some (Value.str pid))

/-- The parsed VisitDate of a row: the strptime result on the string
stored under VisitDate, none when the key is absent (KeyError), holds a
non-string (TypeError), or fails to parse (ValueError). -/
def rowDateKey (r : Row) : Option Nat :=
  match List.lookup "VisitDate" r with
  | some (Value.str s) => parseDate s
  | _ => none

/-- Date key with the default used after a successful parse check. -/
def rk (r : Row) : Nat := (rowDateKey r).getD 0

/-- Python max over a nonempty list with a numeric key function: fold
that keeps the current element unless a strictly larger key appears, so
the first element attaining the maximal key survives. -/
def listMaxBy {α : Type} (key : α → Nat) (a : α) (l : List α) : α :=
  l.foldl (fun acc q => if key q > key acc then q else acc) a

/-- PatientRegistry.get_patient. The in-memory list is threaded
explicitly; rows are paired with their position (List.enum) to mirror
Python object identity: the loop over the matching rows stores the parsed
date under the helper key on each matching row object, max with a key
function returns the first row attaining the maximal key, and the helper
key is then deleted from that row object alone. Returns the chosen row
(or none when no row matches) together with the post-call list; a
strptime failure on any matching row raises, modelled as Except.error. -/
def get_patient (patients : List Row) (pid : String) :
    Except String (Option Row × List Row) :=
  let visits := patients.enum.filter (fun p => matchesPid pid p.2)
  if visits = [] then .ok (none, patients)
  else if visits.all (fun p => (rowDateKey p.2).isSome) then
    let latest := listMaxBy (fun p => rk p.2) (visits.headD (0, [])) visits.tail
    let state := patients.enum.map (fun p =>
      if matchesPid pid p.2 then
        let r1 := assocSet p.2 "_parsed_date" (Value.date (rk p.2))
        if p.1 = latest.1 then assocDel r1 "_parsed_date" else r1
      else p.2)
    .ok (some (assocDel (assocSet latest.2 "_parsed_date" (Value.date (rk latest.2)))
                 "_parsed_date"),
         state)
  else .error "ValueError: time data does not match the date format"

/-- The field names of a visit record, in the key order of the record
literal built by add_patient. -/
def visitFields : List String :=
  ["PatientID", "FirstName", "LastName", "Gender", "DOB",
   "ChiefComplaint", "Department", "VisitDate", "VisitID"]

/-- PatientRegistry.add_patient. The current date string and the
generated VisitID are explicit parameters (datetime.now and uuid4 in the
source). Looks up the seven caller-supplied fields (KeyError on a missing
one), appends the new record to the in-memory list, then saves the whole
list; csv.DictWriter raises when any saved row has a key outside the
record field names, so that check is part of the model. Returns the new
VisitID together with the new in-memory list. -/
def add_patient (patients : List Row) (patient_data : Row)
    (today visit_id : String) : Except String (String × List Row) :=
  match (visitFields.take 7).mapM (fun k => List.lookup k patient_data) with
  | none => .error "KeyError: missing patient field"
  | some vals =>
    let record : Row :=
      (visitFields.take 7).zip vals ++
        [("VisitDate", Value.str today), ("VisitID", Value.str visit_id)]
    let newPatients := patients ++ [record]
    if newPatients.all (fun r => r.all (fun p => decide (p.1 ∈ visitFields))) then
      .ok (visit_id, newPatients)
    else .error "ValueError: dict contains fields not in fieldnames"

/-- PatientRegistry.count_visits_by_date: sum of 1 over the rows whose
VisitDate value equals the given string. -/
def count_visits_by_date (patients : List Row) (date_str : String) : Nat :=
  (((patients.filter
      (fun p => decide (List.lookup "VisitDate" p = some (Value.str date_str)))).map
    (fun _ => 1)).sum)

/-! ## Note index (notes.py) -/

/-- A note row: csv.DictReader output that the note manager never
mutates, so every value is a string. -/
abbrev NoteRow := List (String × String)

/-- Result of get_notes_by_date: either the error dictionary or the list
of matching notes. -/
inductive NotesResult where
  | error (msg : String)
  | notes (ns : List NoteRow)
deriving DecidableEq, Repr

/-- The Python str.startswith test, stated on the character lists of the
two strings. -/
def strStarts (s pre : String) : Bool :=
  pre.data.isPrefixOf s.data

/-- NoteManager.get_notes_by_date: validates the date string with
strptime first and returns the error dictionary on failure; otherwise
keeps the notes whose PatientID equals the given id exactly and whose
VisitDate (empty string when absent) starts with the date string. -/
def get_notes_by_date (notes : List NoteRow) (patient_id date_str : String) :
    NotesResult :=
  match parseDate date_str with
  | none => .error "Date must look like 2023-12-31"
  | some _ =>
    .notes (notes.filter (fun note =>
      decide (List.lookup "PatientID" note = some patient_id) &&
      strStarts ((List.lookup "VisitDate" note).getD "") date_str))

/-! ## Credential check (auth.py) -/

/-- One credential row (the password and role columns of the credential
file; the username is the map key). -/
structure Cred where
  password : String
  role : String
deriving DecidableEq, Repr

/-- The session dictionary returned on successful authentication; the
login timestamp is an explicit parameter standing for datetime.now. -/
structure Session where
  username : String
  role : String
  login_time : Nat
deriving DecidableEq, Repr

/-- The mutable state of AuthSystem: the credential map and the
failed-attempt counter map. -/
structure AuthState where
  credentials : List (String × Cred)
  failed_attempts : List (String × Nat)
deriving DecidableEq, Repr

/-- AuthSystem.authenticate: unknown username returns None with the state
unchanged; a wrong password (case-sensitive string comparison) seeds the
counter entry with 0 when absent, adds one, and returns None; a match
deletes the counter entry when present and returns the session. -/
def authenticate (st : AuthState) (username password : String) (now : Nat) :
    Option Session × AuthState :=
  match List.lookup username st.credentials with
  | none => (none, st)
  | some user =>
    if user.password ≠ password then
      let fa0 :=
        if (List.lookup username st.failed_attempts).isSome then
          st.failed_attempts
        else assocSet st.failed_attempts username 0
      let fa1 := assocSet fa0 username ((List.lookup username fa0).getD 0 + 1)
      (none, { st with failed_attempts := fa1 })
    else
      let fa :=
        if (List.lookup username st.failed_attempts).isSome then
          assocDel st.failed_attempts username
        else st.failed_attempts
      (some { username := username, role := user.role, login_time := now },
       { st with failed_attempts := fa })

/-! ## Record store (utils.py) -/

/-- The destination file as the csv module presents it: a header record
and the data records, every field a string. The textual quoting layer of
the csv module is bijective on such records and is abstracted away. -/
structure CsvFile where
  header : List String
  records : List (List String)
deriving DecidableEq, Repr

/-- Python str applied to a stored value when csv.DictWriter serialises a
field (every value written by this program is already a string). -/
def valueToCsv : Value → String
  | Value.str s => s
  | Value.date n => toString n
  | Value.pynone => ""

/-- save_csv_data, acting on the content of the destination path (none
when no file exists). Empty data returns with the destination untouched.
Otherwise the field names default to the key list of the first row (also
when an empty list was passed, which is falsy in Python), csv.DictWriter
raises on a row with a key outside the field names (the temporary file is
then removed and the destination is left as it was, modelled by the error
case carrying no state), a missing key is written as the empty-string
rest value, and the atomic rename installs the new file. -/
def save_csv_data (data : List Row) (fieldnames : Option (List String))
    (dest : Option CsvFile) : Except String (Option CsvFile) :=
  if data = [] then .ok dest
  else
    let fns :=
      match fieldnames with
      | some f => if f = [] then (data.headD []).map Prod.fst else f
      | none => (data.headD []).map Prod.fst
    if data.all (fun r => r.all (fun p => decide (p.1 ∈ fns))) then
      .ok (some
        { header := fns,
          records := data.map (fun r =>
            fns.map (fun k => valueToCsv ((List.lookup k r).getD (Value.str "")))) })
    else .error "ValueError: dict contains fields not in fieldnames"

/-- One output dictionary of csv.DictReader: the header zipped with the
record, missing trailing fields filled with the Python None rest value.
(A record longer than the header would collect the surplus under a None
key, which no file written by this program produces.) -/
def dictReadRow (header : List String) (vals : List String) : Row :=
  (header.zip vals).map (fun p => (p.1, Value.str p.2)) ++
    (header.drop vals.length).map (fun k => (k, Value.pynone))

/-- load_csv_data, acting on the content of the path: a missing file
yields the empty list (the exception is caught), otherwise each data
record becomes a dictionary keyed by the header; csv treats an empty
record as a blank line and skips it. -/
def load_csv_data (src : Option CsvFile) : List Row :=
  match src with
  | none => []
  | some f =>
    (f.records.filter (fun vals => decide (vals ≠ []))).map (dictReadRow f.header)

/-! ## Lemmas about the dictionary operations -/

theorem lookup_nil {β : Type} (k : String) :
    List.lookup k ([] : List (String × β)) = none := rfl

theorem lookup_cons {β : Type} (k : String) (q : String × β) (m : List (String × β)) :
    List.lookup k (q :: m) = if k = q.1 then some q.2 else List.lookup k m := by
  rcases q with ⟨a, b⟩
  by_cases h : k = a
  · simp [List.lookup, h]
  · have hb : (k == a) = false := beq_eq_false_iff_ne.mpr h
    simp [List.lookup, hb, h]

theorem forall_ne_of_lookup_none {β : Type} :
    ∀ {m : List (String × β)} {k : String},
      List.lookup k m = none → ∀ p ∈ m, p.1 ≠ k := by
  intro m
  induction m with
  | nil => intro k _ p hp; cases hp
  | cons q m ih =>
    intro k h p hp
    rw [lookup_cons] at h
    by_cases hq : k = q.1
    · rw [if_pos hq] at h; cases h
    · rw [if_neg hq] at h
      rcases List.mem_cons.mp hp with hp | hp
      · subst hp; exact fun hc => hq hc.symm
      · exact ih h p hp

theorem assocDel_of_lookup_none {β : Type} {m : List (String × β)} {k : String}
    (h : List.lookup k m = none) : assocDel m k = m := by
  unfold assocDel
  rw [List.filter_eq_self]
  intro p hp
  simpa using forall_ne_of_lookup_none h p hp

/-- Setting a key that is absent and deleting it again restores the
dictionary: this is the set-then-del round trip of the helper field in
get_patient. -/
theorem assocDel_assocSet_absent {β : Type} {m : List (String × β)} {k : String}
    (h : List.lookup k m = none) (v : β) : assocDel (assocSet m k v) k = m := by
  unfold assocSet
  rw [h]
  simp only [Option.isSome_none, Bool.false_eq_true, if_false]
  unfold assocDel
  rw [List.filter_append]
  have h1 : m.filter (fun p => decide (p.1 ≠ k)) = m := by
    rw [List.filter_eq_self]
    intro p hp
    simpa using forall_ne_of_lookup_none h p hp
  have h2 : [(k, v)].filter (fun p : String × β => decide (p.1 ≠ k)) = [] := by simp
  rw [h1, h2, List.append_nil]

theorem lookup_append_left {β : Type} {m : List (String × β)} {k : String}
    (h : List.lookup k m = none) (m2 : List (String × β)) :
    List.lookup k (m ++ m2) = List.lookup k m2 := by
  induction m with
  | nil => rfl
  | cons q m ih =>
    rw [lookup_cons] at h
    by_cases hq : k = q.1
    · rw [if_pos hq] at h; cases h
    · rw [if_neg hq] at h
      rw [List.cons_append, lookup_cons, if_neg hq]
      exact ih h

theorem lookup_assocSet_self {β : Type} (m : List (String × β)) (k : String) (v : β) :
    List.lookup k (assocSet m k v) = some v := by
  unfold assocSet
  by_cases h : (List.lookup k m).isSome
  · rw [if_pos h]
    induction m with
    | nil => simp [lookup_nil] at h
    | cons q m ih =>
      rw [List.map_cons]
      by_cases hk : k = q.1
      · rw [if_pos hk.symm, lookup_cons, if_pos hk]
      · rw [if_neg (fun hc => hk hc.symm), lookup_cons, if_neg hk]
        rw [lookup_cons, if_neg hk] at h
        exact ih h
  · rw [if_neg h]
    rw [Option.not_isSome_iff_eq_none] at h
    rw [lookup_append_left h, lookup_cons, if_pos rfl]

theorem lookup_assocSet_ne {β : Type} (m : List (String × β)) {j k : String}
    (hjk : j ≠ k) (v : β) : List.lookup j (assocSet m k v) = List.lookup j m := by
  unfold assocSet
  by_cases h : (List.lookup k m).isSome
  · rw [if_pos h]
    clear h
    induction m with
    | nil => rfl
    | cons q m ih =>
      rw [List.map_cons]
      by_cases hk : q.1 = k
      · rw [if_pos hk, lookup_cons, lookup_cons]
        have hjq : ¬j = q.1 := by rw [hk]; exact hjk
        rw [if_neg hjq, if_neg hjq]
        exact ih
      · rw [if_neg hk, lookup_cons, lookup_cons]
        by_cases hjq : j = q.1
        · rw [if_pos hjq, if_pos hjq]
        · rw [if_neg hjq, if_neg hjq]
          exact ih
  · rw [if_neg h]
    clear h
    induction m with
    | nil =>
      rw [List.nil_append, lookup_cons, lookup_nil, if_neg hjk]
    | cons q m ih =>
      rw [List.cons_append, lookup_cons, lookup_cons]
      by_cases hjq : j = q.1
      · rw [if_pos hjq, if_pos hjq]
      · rw [if_neg hjq, if_neg hjq]
        exact ih

theorem lookup_assocDel_self {β : Type} (m : List (String × β)) (k : String) :
    List.lookup k (assocDel m k) = none := by
  induction m with
  | nil => rfl
  | cons q m ih =>
    unfold assocDel at ih ⊢
    by_cases hk : q.1 = k
    · rw [List.filter_cons_of_neg (by simp [hk])]
      exact ih
    · rw [List.filter_cons_of_pos (by simp [hk]), lookup_cons,
        if_neg (fun hc => hk hc.symm)]
      exact ih

/-! ## Lemmas about the Python max fold -/

theorem listMaxBy_cons {α : Type} (key : α → Nat) (a q : α) (l : List α) :
    listMaxBy key a (q :: l) =
      listMaxBy key (if key q > key a then q else a) l := rfl

theorem listMaxBy_mem {α : Type} (key : α → Nat) :
    ∀ (l : List α) (a : α), listMaxBy key a l ∈ a :: l := by
  intro l
  induction l with
  | nil => intro a; simp [listMaxBy]
  | cons q l ih =>
    intro a
    rw [listMaxBy_cons]
    rcases List.mem_cons.mp (ih (if key q > key a then q else a)) with h | h
    · rw [h]
      by_cases hq : key q > key a
      · rw [if_pos hq]
        exact List.mem_cons_of_mem _ (List.mem_cons_self _ _)
      · rw [if_neg hq]
        exact List.mem_cons_self _ _
    · exact List.mem_cons_of_mem _ (List.mem_cons_of_mem _ h)

theorem listMaxBy_ge {α : Type} (key : α → Nat) :
    ∀ (l : List α) (a : α) (x : α), x ∈ a :: l → key x ≤ key (listMaxBy key a l) := by
  intro l
  induction l with
  | nil =>
    intro a x hx
    rcases List.mem_cons.mp hx with h | h
    · rw [h]; exact Nat.le_refl _
    · cases h
  | cons q l ih =>
    intro a x hx
    rw [listMaxBy_cons]
    have hstep : key a ≤ key (if key q > key a then q else a) ∧
        key q ≤ key (if key q > key a then q else a) := by
      by_cases hq : key q > key a
      · rw [if_pos hq]
        exact ⟨Nat.le_of_lt hq, Nat.le_refl _⟩
      · rw [if_neg hq]
        exact ⟨Nat.le_refl _, Nat.le_of_not_lt hq⟩
    have hacc := ih (if key q > key a then q else a) _
      (List.mem_cons_self _ l)
    rcases List.mem_cons.mp hx with h | h
    · rw [h]; exact Nat.le_trans hstep.1 hacc
    · rcases List.mem_cons.mp h with h2 | h2
      · rw [h2]; exact Nat.le_trans hstep.2 hacc
      · exact ih _ x (List.mem_cons_of_mem _ h2)

/-- The fold of the Python max returns the first element of the list
attaining the maximal key. -/
theorem listMaxBy_first {α : Type} (key : α → Nat) :
    ∀ (l : List α) (a : α),
      (a :: l).find? (fun q => decide (key (listMaxBy key a l) ≤ key q)) =
        some (listMaxBy key a l) := by
  intro l
  induction l with
  | nil =>
    intro a
    simp [listMaxBy, List.find?]
  | cons q l ih =>
    intro a
    rw [listMaxBy_cons]
    by_cases hqa : key q > key a
    · rw [if_pos hqa]
      have hqF : key q ≤ key (listMaxBy key q l) :=
        listMaxBy_ge key l q q (List.mem_cons_self _ _)
      have hpa : (decide (key (listMaxBy key q l) ≤ key a)) = false := by
        simp only [decide_eq_false_iff_not]
        intro hc
        exact Nat.not_le_of_lt hqa (Nat.le_trans hqF hc)
      simp only [List.find?, hpa]
      exact ih q
    · rw [if_neg hqa]
      have hqa2 : key q ≤ key a := Nat.le_of_not_lt hqa
      have hIH := ih a
      cases hpa : (decide (key (listMaxBy key a l) ≤ key a)) with
      | true =>
        simp only [List.find?, hpa] at hIH
        simp only [List.find?, hpa]
        exact hIH
      | false =>
        simp only [List.find?, hpa] at hIH
        have hpq : (decide (key (listMaxBy key a l) ≤ key q)) = false := by
          simp only [decide_eq_false_iff_not]
          simp only [decide_eq_false_iff_not] at hpa
          intro hc
          exact hpa (Nat.le_trans hc hqa2)
        simp only [List.find?, hpa, hpq]
        exact hIH

/-! ## Bridges between the indexed list and the plain list -/

theorem enumFrom_filter_map_snd {α : Type} (f : α → Bool) :
    ∀ (n : Nat) (l : List α),
      ((List.enumFrom n l).filter (fun p => f p.2)).map Prod.snd = l.filter f := by
  intro n l
  induction l generalizing n with
  | nil => rfl
  | cons x l ih =>
    rw [List.enumFrom]
    cases hfx : f x with
    | true =>
      rw [List.filter_cons_of_pos (by simpa using hfx),
        List.filter_cons_of_pos hfx, List.map_cons, ih]
    | false =>
      rw [List.filter_cons_of_neg (by simpa using hfx),
        List.filter_cons_of_neg (by simpa using hfx), ih]

theorem enum_filter_map_snd {α : Type} (f : α → Bool) (l : List α) :
    ((l.enum.filter (fun p => f p.2)).map Prod.snd) = l.filter f :=
  enumFrom_filter_map_snd f 0 l

theorem find?_map_snd {α β : Type} (p : β → Bool) :
    ∀ (l : List (α × β)),
      ((l.find? (fun q => p q.2)).map Prod.snd) = (l.map Prod.snd).find? p := by
  intro l
  induction l with
  | nil => rfl
  | cons q l ih =>
    cases hq : p q.2 with
    | true =>
      simp only [List.find?, List.map_cons, hq]
      rfl
    | false =>
      simp only [List.find?, List.map_cons, hq]
      exact ih

theorem all_map_snd {α β : Type} (g : β → Bool) (l : List (α × β)) :
    l.all (fun p => g p.2) = (l.map Prod.snd).all g := by
  induction l with
  | nil => rfl
  | cons q l ih =>
    rw [List.all_cons, List.map_cons, List.all_cons, ih]

/-! ## Characterisation of get_patient -/

/-- The set-then-delete of the helper field that the returned row goes
through; equal to the row itself whenever the helper key was absent. -/
def stripTag (r : Row) : Row :=
  assocDel (assocSet r "_parsed_date" (Value.date (rk r))) "_parsed_date"

theorem stripTag_of_no_tag {r : Row} (h : List.lookup "_parsed_date" r = none) :
    stripTag r = r :=
  assocDel_assocSet_absent h _

set_option maxHeartbeats 1000000 in
/-- When at least one row matches and every matching row has a parseable
VisitDate, get_patient succeeds and returns (after the helper-field round
trip) the first matching row, in load order, whose parsed date is
maximal. -/
theorem get_patient_spec (patients : List Row) (pid : String)
    (hne : patients.filter (matchesPid pid) ≠ [])
    (hparse : ∀ r ∈ patients.filter (matchesPid pid), (rowDateKey r).isSome = true) :
    ∃ st r, get_patient patients pid = .ok (some (stripTag r), st) ∧
      r ∈ patients.filter (matchesPid pid) ∧
      (∀ v ∈ patients.filter (matchesPid pid), rk v ≤ rk r) ∧
      (patients.filter (matchesPid pid)).find? (fun v => decide (rk r ≤ rk v)) =
        some r := by
  have hbridge : (patients.enum.filter (fun p => matchesPid pid p.2)).map Prod.snd =
      patients.filter (matchesPid pid) := enum_filter_map_snd _ patients
  have hevne : patients.enum.filter (fun p => matchesPid pid p.2) ≠ [] := by
    intro hc
    rw [hc] at hbridge
    exact hne hbridge.symm
  obtain ⟨v0, vs, hcons⟩ := List.exists_cons_of_ne_nil hevne
  have hall : (patients.enum.filter (fun p => matchesPid pid p.2)).all
      (fun p => (rowDateKey p.2).isSome) = true := by
    rw [all_map_snd (fun r => (rowDateKey r).isSome), hbridge, List.all_eq_true]
    exact hparse
  simp only [get_patient]
  rw [hcons] at hall ⊢
  rw [if_neg (List.cons_ne_nil v0 vs), if_pos hall]
  simp only [List.headD_cons, List.tail_cons]
  refine ⟨List.map (fun p =>
      if matchesPid pid p.2 = true then
        if p.1 = (listMaxBy (fun p => rk p.2) v0 vs).1 then
          assocDel (assocSet p.2 "_parsed_date" (Value.date (rk p.2))) "_parsed_date"
        else assocSet p.2 "_parsed_date" (Value.date (rk p.2))
      else p.2) patients.enum,
    (listMaxBy (fun p => rk p.2) v0 vs).2, ?_, ?_, ?_, ?_⟩
  · exact rfl
  · rw [← hbridge, hcons]
    exact List.mem_map_of_mem Prod.snd (listMaxBy_mem _ vs v0)
  · intro v hv
    rw [← hbridge, hcons] at hv
    rcases List.mem_map.mp hv with ⟨p, hp, hp2⟩
    rw [← hp2]
    exact listMaxBy_ge (fun p => rk p.2) vs v0 p hp
  · rw [← hbridge, hcons]
    rw [← find?_map_snd (fun v => decide (rk (listMaxBy (fun p => rk p.2) v0 vs).2 ≤ rk v))
      (v0 :: vs)]
    rw [listMaxBy_first (fun p => rk p.2) vs v0]
    rfl

/-- The maximal parsed date key among a list of visit rows (0 when the
list is empty; every parseable date key is positive). -/
def maxDateKey (visits : List Row) : Nat := (visits.map rk).foldr max 0

/-- The first row, in load order, whose parsed date key attains the
maximum: the specification-level description of the tie-break. -/
def firstMaxVisit (visits : List Row) : Option Row :=
  visits.find? (fun v => decide (maxDateKey visits ≤ rk v))

theorem foldr_max_le {l : List Nat} {m : Nat} (h : ∀ x ∈ l, x ≤ m) :
    l.foldr max 0 ≤ m := by
  induction l with
  | nil => exact Nat.zero_le m
  | cons q l ih =>
    rw [List.foldr_cons]
    exact Nat.max_le.mpr ⟨h q (List.mem_cons_self _ _),
      ih (fun x hx => h x (List.mem_cons_of_mem _ hx))⟩

theorem le_foldr_max {l : List Nat} {x : Nat} (h : x ∈ l) : x ≤ l.foldr max 0 := by
  induction l with
  | nil => cases h
  | cons q l ih =>
    rw [List.foldr_cons]
    rcases List.mem_cons.mp h with h2 | h2
    · rw [h2]; exact Nat.le_max_left _ _
    · exact Nat.le_trans (ih h2) (Nat.le_max_right _ _)

theorem maxDateKey_eq {visits : List Row} {r : Row} (hmem : r ∈ visits)
    (hge : ∀ v ∈ visits, rk v ≤ rk r) : maxDateKey visits = rk r := by
  unfold maxDateKey
  apply Nat.le_antisymm
  · apply foldr_max_le
    intro x hx
    rcases List.mem_map.mp hx with ⟨v, hv, hv2⟩
    rw [← hv2]
    exact hge v hv
  · exact le_foldr_max (List.mem_map_of_mem rk hmem)

/-- When no row matches the patient id, get_patient returns None and the
in-memory list unchanged. -/
theorem get_patient_not_found (patients : List Row) (pid : String)
    (h : patients.filter (matchesPid pid) = []) :
    get_patient patients pid = .ok (none, patients) := by
  have hbridge : (patients.enum.filter (fun p => matchesPid pid p.2)).map Prod.snd =
      patients.filter (matchesPid pid) := enum_filter_map_snd _ patients
  rw [h] at hbridge
  have hev : patients.enum.filter (fun p => matchesPid pid p.2) = [] := by
    rcases he : patients.enum.filter (fun p => matchesPid pid p.2) with _ | ⟨q, l⟩
    · exact he
    · rw [he, List.map_cons] at hbridge
      cases hbridge
  simp only [get_patient]
  rw [hev]
  simp

/-- Decidable equality for Except results, so that concrete runs of the
embedded operations can be checked by evaluation. -/
instance {ε α : Type} [DecidableEq ε] [DecidableEq α] : DecidableEq (Except ε α)
  | .error e, .error f =>
    if h : e = f then isTrue (h ▸ rfl) else isFalse (fun c => h (Except.error.inj c))
  | .error _, .ok _ => isFalse (fun c => Except.noConfusion c)
  | .ok _, .error _ => isFalse (fun c => Except.noConfusion c)
  | .ok x, .ok y =>
    if h : x = y then isTrue (h ▸ rfl) else isFalse (fun c => h (Except.ok.inj c))

/-! ## Claim theorems -/

/-- C1: for every patient id whose matching visits all have parseable and
pairwise distinct VisitDate values (and carry no pre-existing helper
field), get_patient returns exactly the matching row whose parsed
VisitDate is maximal, that is, a matching row strictly later than every
other matching row; and when no row matches it returns None. -/
theorem getLatestVisit_returns_unique_max_row (patients : List Row) (pid : String) :
    (patients.filter (matchesPid pid) = [] →
      get_patient patients pid = .ok (none, patients)) ∧
    ((∀ r ∈ patients.filter (matchesPid pid), (rowDateKey r).isSome = true) →
     (∀ a ∈ patients.filter (matchesPid pid), ∀ b ∈ patients.filter (matchesPid pid),
        a ≠ b → rk a ≠ rk b) →
     (∀ r ∈ patients.filter (matchesPid pid),
        List.lookup "_parsed_date" r = none) →
     2 ≤ (patients.filter (matchesPid pid)).length →
     ∃ st r, get_patient patients pid = .ok (some r, st) ∧
       r ∈ patients.filter (matchesPid pid) ∧
       ∀ v ∈ patients.filter (matchesPid pid), v ≠ r → rk v < rk r) := by
  constructor
  · exact get_patient_not_found patients pid
  · intro hparse hdistinct hnotag hlen
    have hne : patients.filter (matchesPid pid) ≠ [] := by
      intro hc
      rw [hc] at hlen
      cases hlen
    obtain ⟨st, r, heq, hmem, hge, _⟩ := get_patient_spec patients pid hne hparse
    refine ⟨st, r, ?_, hmem, ?_⟩
    · rw [heq, stripTag_of_no_tag (hnotag r hmem)]
    · intro v hv hvr
      exact Nat.lt_of_le_of_ne (hge v hv) (hdistinct v hv r hmem hvr)

def rowA1 : Row :=
  [("PatientID", Value.str "P1"), ("VisitDate", Value.str "2023-01-01"),
   ("VisitID", Value.str "A")]

def rowA2 : Row :=
  [("PatientID", Value.str "P1"), ("VisitDate", Value.str "2023-01-02"),
   ("VisitID", Value.str "B")]

/-- Witness for C1: on a registry with two visits for P1 on distinct
dates, the right conjunct produces the strictly latest visit, and for an
unknown id the left conjunct yields None. -/
theorem getLatestVisit_returns_unique_max_row_check :
    (∃ st r, get_patient [rowA1, rowA2] "P1" = .ok (some r, st) ∧
       r ∈ [rowA1, rowA2].filter (matchesPid "P1") ∧
       ∀ v ∈ [rowA1, rowA2].filter (matchesPid "P1"), v ≠ r → rk v < rk r) ∧
    get_patient [rowA1, rowA2] "P9" = .ok (none, [rowA1, rowA2]) :=
  ⟨(getLatestVisit_returns_unique_max_row [rowA1, rowA2] "P1").2
      (by decide) (by decide) (by decide) (by decide),
   (getLatestVisit_returns_unique_max_row [rowA1, rowA2] "P9").1 (by decide)⟩

def rowB1 : Row :=
  [("PatientID", Value.str "P1"), ("VisitDate", Value.str "2023-04-01"),
   ("VisitID", Value.str "A")]

def rowB2 : Row :=
  [("PatientID", Value.str "P1"), ("VisitDate", Value.str "2023-04-01"),
   ("VisitID", Value.str "B")]

/-- C2 counterexample: two visits for P1 share the same maximal parsed
date; the claim says the last such row in load order (rowB2) is returned,
but get_patient returns the first one (rowB1): the Python max keeps the
current element on ties, so the first maximal element survives the scan. -/
theorem getLatestVisit_tie_last_wins_refuted :
    rk rowB1 = rk rowB2 ∧ rowB1 ≠ rowB2 ∧
    get_patient [rowB1, rowB2] "P1" =
      .ok (some rowB1,
        [rowB1, rowB2 ++ [("_parsed_date", Value.date 20230401)]]) := by decide

/-- C2 amended: among several rows sharing the maximal parsed VisitDate,
get_patient returns the FIRST such row in original load order (the first
one encountered during the max-scan wins the tie). -/
theorem getLatestVisit_tie_first_wins (patients : List Row) (pid : String)
    (hne : patients.filter (matchesPid pid) ≠ [])
    (hparse : ∀ r ∈ patients.filter (matchesPid pid), (rowDateKey r).isSome = true)
    (hnotag : ∀ r ∈ patients.filter (matchesPid pid),
      List.lookup "_parsed_date" r = none) :
    ∃ st r, get_patient patients pid = .ok (some r, st) ∧
      firstMaxVisit (patients.filter (matchesPid pid)) = some r := by
  obtain ⟨st, r, heq, hmem, hge, hfind⟩ := get_patient_spec patients pid hne hparse
  refine ⟨st, r, ?_, ?_⟩
  · rw [heq, stripTag_of_no_tag (hnotag r hmem)]
  · unfold firstMaxVisit
    rw [maxDateKey_eq hmem hge]
    exact hfind

/-- Witness for C2 amended: on the tying registry the returned row is the
first maximal one. -/
theorem getLatestVisit_tie_first_wins_check :
    ∃ st r, get_patient [rowB1, rowB2] "P1" = .ok (some r, st) ∧
      firstMaxVisit ([rowB1, rowB2].filter (matchesPid "P1")) = some r :=
  getLatestVisit_tie_first_wins [rowB1, rowB2] "P1"
    (by decide) (by decide) (by decide)

def rowJ1 : Row :=
  [("PatientID", Value.str "P1"), ("VisitDate", Value.str "2023-01-01"),
   ("VisitID", Value.str "A")]

def rowJ2 : Row :=
  [("PatientID", Value.str "P1"), ("VisitDate", Value.str "2023-01-02"),
   ("VisitID", Value.str "B")]

/-- C10: get_patient is NOT a pure read. On a registry holding two visits
for P1, the call returns the later visit but leaves the internal helper
field _parsed_date on the earlier matching row, so the post-call state
differs from the pre-call state (the code intends to clean the helper up
but deletes it only from the returned row). -/
theorem getLatestVisit_leaves_helper_field_behind :
    get_patient [rowJ1, rowJ2] "P1" =
      .ok (some rowJ2,
        [rowJ1 ++ [("_parsed_date", Value.date 20230101)], rowJ2]) ∧
    rowJ1 ++ [("_parsed_date", Value.date 20230101)] ≠ rowJ1 := by decide

/-- The specification-level matching rule for notes: the PatientID field
equals the requested id exactly, and the VisitDate field starts with the
requested calendar day (tolerating a trailing time-of-day component). -/
def noteMatches (pid ds : String) (n : NoteRow) : Prop :=
  List.lookup "PatientID" n = some pid ∧
  strStarts ((List.lookup "VisitDate" n).getD "") ds = true

instance (pid ds : String) (n : NoteRow) : Decidable (noteMatches pid ds n) :=
  inferInstanceAs (Decidable (_ ∧ _))

theorem sum_map_one {α : Type} (l : List α) :
    (l.map (fun _ => (1 : Nat))).sum = l.length := by
  induction l with
  | nil => rfl
  | cons q l ih =>
    rw [List.map_cons, List.sum_cons, ih, List.length_cons, Nat.add_comm]

/-- C3: for a valid YYYY-MM-DD date string, get_notes_by_date returns
exactly the stored notes whose PatientID equals the requested id and
whose VisitDate starts with the date string, and the empty list (never an
error and never a null) when nothing matches. -/
theorem findNotesByDate_prefix_filter (notes : List NoteRow) (pid ds : String)
    (d : Nat) (h : parseDate ds = some d) :
    get_notes_by_date notes pid ds =
      .notes (notes.filter (fun n => decide (noteMatches pid ds n))) ∧
    ((∀ n ∈ notes, ¬ noteMatches pid ds n) →
      get_notes_by_date notes pid ds = .notes []) := by
  have hfilter : notes.filter (fun note =>
      decide (List.lookup "PatientID" note = some pid) &&
      strStarts ((List.lookup "VisitDate" note).getD "") ds) =
      notes.filter (fun n => decide (noteMatches pid ds n)) := by
    apply List.filter_congr
    intro n _
    unfold noteMatches
    by_cases hp : List.lookup "PatientID" n = some pid <;> simp [hp]
  constructor
  · unfold get_notes_by_date
    rw [h, hfilter]
  · intro hnone
    unfold get_notes_by_date
    rw [h, hfilter]
    have : notes.filter (fun n => decide (noteMatches pid ds n)) = [] := by
      rw [List.filter_eq_nil_iff]
      intro n hn
      simpa using hnone n hn
    rw [this]

def noteC1 : NoteRow :=
  [("PatientID", "P1"), ("VisitDate", "2023-05-01 09:00"), ("NoteText", "spoke")]

def noteC2 : NoteRow :=
  [("PatientID", "P2"), ("VisitDate", "2023-05-01 10:00"), ("NoteText", "other")]

/-- Witness for C3: the note stored with a time-of-day suffix is returned
for its calendar day by the prefix rule, while a query matching nothing
yields the empty list. -/
theorem findNotesByDate_prefix_filter_check :
    (get_notes_by_date [noteC1, noteC2] "P1" "2023-05-01" =
      .notes ([noteC1, noteC2].filter
        (fun n => decide (noteMatches "P1" "2023-05-01" n)))) ∧
    get_notes_by_date [noteC1, noteC2] "P9" "2023-05-01" = .notes [] :=
  ⟨(findNotesByDate_prefix_filter [noteC1, noteC2] "P1" "2023-05-01" 20230501
      (by decide)).1,
   (findNotesByDate_prefix_filter [noteC1, noteC2] "P9" "2023-05-01" 20230501
      (by decide)).2 (by decide)⟩

/-- C4: for every date string the strptime check rejects,
get_notes_by_date returns the error result with its human-readable
message, never a list of notes; the result does not depend on the stored
notes at all, so the validation happens before any matching. -/
theorem findNotesByDate_rejects_malformed (notes : List NoteRow) (pid ds : String)
    (h : parseDate ds = none) :
    get_notes_by_date notes pid ds = .error "Date must look like 2023-12-31" ∧
    ∀ notes2 : List NoteRow,
      get_notes_by_date notes2 pid ds = get_notes_by_date notes pid ds := by
  constructor
  · unfold get_notes_by_date
    rw [h]
  · intro notes2
    unfold get_notes_by_date
    rw [h]

def noteD1 : NoteRow :=
  [("PatientID", "P1"), ("VisitDate", "2023-05-01 09:00"), ("NoteText", "spoke")]

/-- Witness for C4: the truncated date of the specification scenario is
rejected with the error result even though a note for that patient is
stored. -/
theorem findNotesByDate_rejects_malformed_check :
    get_notes_by_date [noteD1] "P1" "2023-05-0" =
      .error "Date must look like 2023-12-31" :=
  (findNotesByDate_rejects_malformed [noteD1] "P1" "2023-05-0" (by decide)).1

/-- C5: count_visits_by_date counts exactly the rows whose VisitDate
value is string-equal to the argument (no prefix tolerance), and a date
string the parser rejects yields zero whenever the stored rows carry
parseable dates, rather than an error. -/
theorem countVisitsOnDate_exact_count (patients : List Row) (ds : String) :
    count_visits_by_date patients ds =
      patients.countP
        (fun p => decide (List.lookup "VisitDate" p = some (Value.str ds))) ∧
    (parseDate ds = none →
     (∀ r ∈ patients, (rowDateKey r).isSome = true) →
     count_visits_by_date patients ds = 0) := by
  have hcount : count_visits_by_date patients ds =
      patients.countP
        (fun p => decide (List.lookup "VisitDate" p = some (Value.str ds))) := by
    unfold count_visits_by_date
    rw [sum_map_one, List.countP_eq_length_filter]
  refine ⟨hcount, ?_⟩
  intro hbad hparse
  rw [hcount, List.countP_eq_length_filter]
  have : patients.filter
      (fun p => decide (List.lookup "VisitDate" p = some (Value.str ds))) = [] := by
    rw [List.filter_eq_nil_iff]
    intro r hr hP
    have hlook : List.lookup "VisitDate" r = some (Value.str ds) :=
      of_decide_eq_true hP
    have hnone : rowDateKey r = none := by
      unfold rowDateKey
      rw [hlook]
      exact hbad
    have h2 := hparse r hr
    rw [hnone] at h2
    cases h2
  rw [this]
  rfl

def rowE1 : Row :=
  [("PatientID", Value.str "P1"), ("VisitDate", Value.str "2023-05-01"),
   ("VisitID", Value.str "A")]

/-- Witness for C5: a slash-formatted date string matches no row of a
well-formed registry and counts zero instead of raising. -/
theorem countVisitsOnDate_exact_count_check :
    count_visits_by_date [rowE1] "05/01/2023" = 0 :=
  (countVisitsOnDate_exact_count [rowE1] "05/01/2023").2 (by decide) (by decide)

/-- C6: adding a visit and immediately asking for the latest visit of the
same patient returns a row whose VisitID is the one just returned by
add_patient, whenever the new visit is the sole visit for that patient or
is strictly more recent than every stored one (the stored rows being
well-formed: keys within the visit schema, hence no helper field, and
parseable dates). -/
theorem addVisit_then_getLatestVisit (patients : List Row) (pd : Row)
    (pid today vid : String) (d : Nat)
    (hpid : List.lookup "PatientID" pd = some (Value.str pid))
    (hkeys : ∀ k ∈ visitFields.take 7, (List.lookup k pd).isSome = true)
    (hwf : ∀ r ∈ patients, ∀ p ∈ r, p.1 ∈ visitFields)
    (htoday : parseDate today = some d)
    (hrecent : ∀ r ∈ patients.filter (matchesPid pid),
      (rowDateKey r).isSome = true ∧ rk r < d) :
    ∃ patients2 st r2, add_patient patients pd today vid = .ok (vid, patients2) ∧
      get_patient patients2 pid = .ok (some r2, st) ∧
      List.lookup "VisitID" r2 = some (Value.str vid) := by
  obtain ⟨v1, hv1⟩ := Option.isSome_iff_exists.mp (hkeys "FirstName" (by decide))
  obtain ⟨v2, hv2⟩ := Option.isSome_iff_exists.mp (hkeys "LastName" (by decide))
  obtain ⟨v3, hv3⟩ := Option.isSome_iff_exists.mp (hkeys "Gender" (by decide))
  obtain ⟨v4, hv4⟩ := Option.isSome_iff_exists.mp (hkeys "DOB" (by decide))
  obtain ⟨v5, hv5⟩ := Option.isSome_iff_exists.mp (hkeys "ChiefComplaint" (by decide))
  obtain ⟨v6, hv6⟩ := Option.isSome_iff_exists.mp (hkeys "Department" (by decide))
  have hmapM : (visitFields.take 7).mapM (fun k => List.lookup k pd) =
      some [Value.str pid, v1, v2, v3, v4, v5, v6] := by
    show ((["PatientID", "FirstName", "LastName", "Gender", "DOB",
      "ChiefComplaint", "Department"] : List String).mapM
        (fun k => List.lookup k pd)) = _
    rw [List.mapM_cons, hpid, List.mapM_cons, hv1, List.mapM_cons, hv2,
      List.mapM_cons, hv3, List.mapM_cons, hv4, List.mapM_cons, hv5,
      List.mapM_cons, hv6, List.mapM_nil]
    rfl
  have hrec : (visitFields.take 7).zip [Value.str pid, v1, v2, v3, v4, v5, v6] ++
      [("VisitDate", Value.str today), ("VisitID", Value.str vid)] =
      [("PatientID", Value.str pid), ("FirstName", v1), ("LastName", v2),
       ("Gender", v3), ("DOB", v4), ("ChiefComplaint", v5), ("Department", v6),
       ("VisitDate", Value.str today), ("VisitID", Value.str vid)] := rfl
  set record : Row :=
    [("PatientID", Value.str pid), ("FirstName", v1), ("LastName", v2),
     ("Gender", v3), ("DOB", v4), ("ChiefComplaint", v5), ("Department", v6),
     ("VisitDate", Value.str today), ("VisitID", Value.str vid)] with hrecdef
  have hrkeys : ∀ p ∈ record, p.1 ∈ visitFields := by
    intro p hp
    simp only [hrecdef, List.mem_cons, List.not_mem_nil, or_false] at hp
    rcases hp with rfl | rfl | rfl | rfl | rfl | rfl | rfl | rfl | rfl
      <;> simp [visitFields]
  have hall : ((patients ++ [record]).all
      (fun r => r.all (fun p => decide (p.1 ∈ visitFields)))) = true := by
    rw [List.all_eq_true]
    intro r hr
    rw [List.all_eq_true]
    intro p hp
    rcases List.mem_append.mp hr with hr | hr
    · exact decide_eq_true (hwf r hr p hp)
    · rcases List.mem_singleton.mp hr with rfl
      exact decide_eq_true (hrkeys p hp)
  have hadd : add_patient patients pd today vid = .ok (vid, patients ++ [record]) := by
    unfold add_patient
    rw [hmapM]
    simp only [hrec, ← hrecdef]
    rw [if_pos hall]
  have hmatchrec : matchesPid pid record = true := by
    unfold matchesPid
    apply decide_eq_true
    rw [hrecdef, lookup_cons]
    simp
  have hfilter2 : (patients ++ [record]).filter (matchesPid pid) =
      patients.filter (matchesPid pid) ++ [record] := by
    rw [List.filter_append]
    congr 1
    rw [List.filter_cons_of_pos hmatchrec]
    rfl
  have hrdk : rowDateKey record = some d := by
    unfold rowDateKey
    rw [hrecdef]
    simp only [lookup_cons]
    simp
    exact htoday
  have hrkd : rk record = d := by
    unfold rk
    rw [hrdk]
    rfl
  have hne2 : (patients ++ [record]).filter (matchesPid pid) ≠ [] := by
    rw [hfilter2]
    intro hc
    rcases List.append_eq_nil.mp hc with ⟨_, hc2⟩
    cases hc2
  have hparse2 : ∀ r ∈ (patients ++ [record]).filter (matchesPid pid),
      (rowDateKey r).isSome = true := by
    intro r hr
    rw [hfilter2] at hr
    rcases List.mem_append.mp hr with hr | hr
    · exact (hrecent r hr).1
    · rcases List.mem_singleton.mp hr with rfl
      rw [hrdk]
      rfl
  obtain ⟨st, r, heq, hmem, hge, _⟩ :=
    get_patient_spec (patients ++ [record]) pid hne2 hparse2
  have hreq : r = record := by
    rw [hfilter2] at hmem
    rcases List.mem_append.mp hmem with hmem2 | hmem2
    · exfalso
      have hlt : rk r < d := (hrecent r hmem2).2
      have hgerec : rk record ≤ rk r := by
        apply hge
        rw [hfilter2]
        exact List.mem_append.mpr (Or.inr (List.mem_singleton.mpr rfl))
      rw [hrkd] at hgerec
      exact Nat.lt_irrefl d (Nat.lt_of_le_of_lt hgerec hlt)
    · exact List.mem_singleton.mp hmem2
  have hnotag : List.lookup "_parsed_date" record = none := by
    rw [hrecdef]
    simp only [lookup_cons]
    simp
  refine ⟨patients ++ [record], st, record, hadd, ?_, ?_⟩
  · rw [heq, hreq, stripTag_of_no_tag hnotag]
  · rw [hrecdef]
    simp only [lookup_cons]
    simp

def pdF : Row :=
  [("PatientID", Value.str "P1"), ("FirstName", Value.str "Ada"),
   ("LastName", Value.str "Li"), ("Gender", Value.str "F"),
   ("DOB", Value.str "1990-01-01"), ("ChiefComplaint", Value.str "cough"),
   ("Department", Value.str "ER")]

/-- Witness for C6: on an empty registry, adding a visit for P1 and
reading the latest visit back returns the VisitID just generated. -/
theorem addVisit_then_getLatestVisit_check :
    ∃ patients2 st r2,
      add_patient [] pdF "2023-05-01" "V-42" = .ok ("V-42", patients2) ∧
      get_patient patients2 "P1" = .ok (some r2, st) ∧
      List.lookup "VisitID" r2 = some (Value.str "V-42") :=
  addVisit_then_getLatestVisit [] pdF "P1" "2023-05-01" "V-42" 20230501
    (by decide) (by decide) (by decide) (by decide) (by decide)

/-- C7: authenticate returns not-authenticated for an unknown username
(state unchanged); for a known username with a wrong password (exact,
case-sensitive comparison) it returns not-authenticated and increments
that username's failed-attempt counter by one; and for a matching
password it returns the session carrying the username, the stored role
and the timestamp, and clears that username's failed-attempt counter. -/
theorem authenticate_found (st : AuthState) (u p : String) (t : Nat) (c : Cred)
    (hc : List.lookup u st.credentials = some c) :
    authenticate st u p t =
      if c.password ≠ p then
        (none, AuthState.mk st.credentials
          (assocSet
            (if (List.lookup u st.failed_attempts).isSome then st.failed_attempts
             else assocSet st.failed_attempts u 0) u
            ((List.lookup u
              (if (List.lookup u st.failed_attempts).isSome then st.failed_attempts
               else assocSet st.failed_attempts u 0)).getD 0 + 1)))
      else
        (some (Session.mk u c.role t),
         AuthState.mk st.credentials
          (if (List.lookup u st.failed_attempts).isSome then
            assocDel st.failed_attempts u
          else st.failed_attempts)) := by
  unfold authenticate
  rw [hc]

theorem authenticate_behaviour (st : AuthState) (u p : String) (t : Nat) :
    (List.lookup u st.credentials = none → authenticate st u p t = (none, st)) ∧
    (∀ c, List.lookup u st.credentials = some c → c.password ≠ p →
      (authenticate st u p t).1 = none ∧
      List.lookup u (authenticate st u p t).2.failed_attempts =
        some ((List.lookup u st.failed_attempts).getD 0 + 1)) ∧
    (∀ c, List.lookup u st.credentials = some c → c.password = p →
      (authenticate st u p t).1 =
        some { username := u, role := c.role, login_time := t } ∧
      List.lookup u (authenticate st u p t).2.failed_attempts = none) := by
  refine ⟨?_, ?_, ?_⟩
  · intro h
    unfold authenticate
    rw [h]
  · intro c hc hne
    rw [authenticate_found st u p t c hc, if_pos hne]
    refine ⟨rfl, ?_⟩
    rw [lookup_assocSet_self]
    by_cases hin : (List.lookup u st.failed_attempts).isSome
    · rw [if_pos hin]
    · rw [if_neg hin]
      rw [Option.not_isSome_iff_eq_none] at hin
      rw [lookup_assocSet_self, hin]
      rfl
  · intro c hc he
    rw [authenticate_found st u p t c hc, if_neg (fun hn => hn he)]
    refine ⟨rfl, ?_⟩
    by_cases hin : (List.lookup u st.failed_attempts).isSome
    · rw [if_pos hin]
      exact lookup_assocDel_self _ _
    · rw [if_neg hin]
      exact Option.not_isSome_iff_eq_none.mp hin

def stG : AuthState :=
  { credentials := [("alice", { password := "secret", role := "nurse" })],
    failed_attempts := [] }

/-- Witness for C7: against a store holding alice/secret/nurse, an
unknown user and a wrong password are rejected (the wrong password
setting the counter to one), and the right password yields the session
and a cleared counter. -/
theorem authenticate_behaviour_check :
    authenticate stG "bob" "x" 5 = (none, stG) ∧
    ((authenticate stG "alice" "wrong" 5).1 = none ∧
      List.lookup "alice" (authenticate stG "alice" "wrong" 5).2.failed_attempts =
        some 1) ∧
    ((authenticate stG "alice" "secret" 5).1 =
        some { username := "alice", role := "nurse", login_time := 5 } ∧
      List.lookup "alice" (authenticate stG "alice" "secret" 5).2.failed_attempts =
        none) :=
  ⟨(authenticate_behaviour stG "bob" "x" 5).1 (by decide),
   (authenticate_behaviour stG "alice" "wrong" 5).2.1
     { password := "secret", role := "nurse" } (by decide) (by decide),
   (authenticate_behaviour stG "alice" "secret" 5).2.2
     { password := "secret", role := "nurse" } (by decide) (by decide)⟩

/-- Whether a stored value is a plain string field (the only kind of
value a CSV-loaded, string-stamped row holds). -/
def isStrVal : Value → Bool
  | Value.str _ => true
  | _ => false

theorem load_csv_data_some (f : CsvFile) :
    load_csv_data (some f) =
      (f.records.filter (fun vals => decide (vals ≠ []))).map (dictReadRow f.header) := by
  unfold load_csv_data
  rfl

theorem dictReadRow_cons (k s : String) (f2 : List String) (v2 : List String) :
    dictReadRow (k :: f2) (s :: v2) = (k, Value.str s) :: dictReadRow f2 v2 := by
  unfold dictReadRow
  rw [List.zip_cons_cons, List.map_cons, List.length_cons, List.drop_succ_cons]
  rfl

/-- Writing a row under its own field list and reading the record back
reproduces the row, provided the keys are exactly the field list (in
order, without duplicates) and every value is a string. -/
theorem writeRead_row : ∀ (r : Row) (fns : List String),
    r.map Prod.fst = fns → fns.Nodup → (∀ p ∈ r, isStrVal p.2 = true) →
    dictReadRow fns
      (fns.map (fun k => valueToCsv ((List.lookup k r).getD (Value.str "")))) = r := by
  intro r
  induction r with
  | nil =>
    intro fns hk _ _
    rw [← hk]
    rfl
  | cons q r2 ih =>
    intro fns hk hnd hstr
    rcases q with ⟨k, v⟩
    rw [List.map_cons] at hk
    rcases fns with _ | ⟨k2, fns2⟩
    · cases hk
    · have hkk : k2 = k := by
        have := congrArg (fun l => l.headD "") hk
        simpa using this.symm
      subst hkk
      have hk2 : r2.map Prod.fst = fns2 := by
        have := congrArg List.tail hk
        simpa using this
      have hnotin : k2 ∉ fns2 := (List.nodup_cons.mp hnd).1
      have hnd2 : fns2.Nodup := (List.nodup_cons.mp hnd).2
      rw [List.map_cons]
      have hhead : List.lookup k2 ((k2, v) :: r2) = some v := by
        rw [lookup_cons, if_pos rfl]
      rw [hhead]
      have htail : fns2.map
          (fun k => valueToCsv ((List.lookup k ((k2, v) :: r2)).getD (Value.str ""))) =
          fns2.map
          (fun k => valueToCsv ((List.lookup k r2).getD (Value.str ""))) := by
        apply List.map_congr_left
        intro a ha
        have hne : a ≠ k2 := fun hc => hnotin (hc ▸ ha)
        rw [lookup_cons, if_neg hne]
      rw [htail, dictReadRow_cons]
      have hv : isStrVal v = true := hstr (k2, v) (List.mem_cons_self _ _)
      rcases v with s | n | _
      · rw [ih fns2 hk2 hnd2
          (fun p hp => hstr p (List.mem_cons_of_mem _ hp))]
        rfl
      · cases hv
      · cases hv

/-- C8: saving a non-empty collection of uniform string-valued rows and
loading the same path back yields the collection unchanged, field for
field and in the same row order. -/
theorem save_then_load_roundtrip (data : List Row) (dest : Option CsvFile)
    (hne : data ≠ [])
    (hkeys : ∀ r ∈ data, r.map Prod.fst = (data.headD []).map Prod.fst)
    (hnd : ((data.headD []).map Prod.fst).Nodup)
    (hfne : (data.headD []).map Prod.fst ≠ [])
    (hstr : ∀ r ∈ data, ∀ p ∈ r, isStrVal p.2 = true) :
    ∃ f, save_csv_data data none dest = .ok (some f) ∧
      load_csv_data (some f) = data := by
  set fns := (data.headD []).map Prod.fst with hfns
  have hall : (data.all (fun r => r.all (fun p => decide (p.1 ∈ fns)))) = true := by
    rw [List.all_eq_true]
    intro r hr
    rw [List.all_eq_true]
    intro p hp
    apply decide_eq_true
    rw [← hkeys r hr]
    exact List.mem_map_of_mem Prod.fst hp
  have hsave : save_csv_data data none dest =
      .ok (some (CsvFile.mk fns (data.map (fun r =>
        fns.map (fun k => valueToCsv ((List.lookup k r).getD (Value.str ""))))))) := by
    unfold save_csv_data
    rw [if_neg hne]
    rw [if_pos hall]
  refine ⟨_, hsave, ?_⟩
  rw [load_csv_data_some]
  dsimp only
  have hlens : ∀ vals ∈ data.map (fun r =>
      fns.map (fun k => valueToCsv ((List.lookup k r).getD (Value.str "")))),
      vals ≠ [] := by
    intro vals hv
    rcases List.mem_map.mp hv with ⟨r, _, hr2⟩
    rw [← hr2]
    intro hc
    exact hfne (List.map_eq_nil_iff.mp hc)
  have hfilter : (data.map (fun r =>
      fns.map (fun k => valueToCsv ((List.lookup k r).getD (Value.str ""))))).filter
        (fun vals => decide (vals ≠ [])) =
      data.map (fun r =>
        fns.map (fun k => valueToCsv ((List.lookup k r).getD (Value.str "")))) := by
    rw [List.filter_eq_self]
    intro vals hv
    exact decide_eq_true (hlens vals hv)
  rw [hfilter, List.map_map]
  have : (dictReadRow fns ∘ fun r =>
      fns.map (fun k => valueToCsv ((List.lookup k r).getD (Value.str "")))) = fun r =>
      dictReadRow fns (fns.map (fun k => valueToCsv ((List.lookup k r).getD (Value.str "")))) :=
    rfl
  rw [this]
  have hcongr : ∀ r ∈ data,
      dictReadRow fns (fns.map (fun k => valueToCsv ((List.lookup k r).getD (Value.str "")))) =
        r := by
    intro r hr
    exact writeRead_row r fns (hkeys r hr) hnd (hstr r hr)
  calc data.map _ = data.map id := List.map_congr_left hcongr
    _ = data := List.map_id data

def rowH1 : Row :=
  [("PatientID", Value.str "P1"), ("VisitDate", Value.str "2023-05-01"),
   ("VisitID", Value.str "A")]

def rowH2 : Row :=
  [("PatientID", Value.str "P2"), ("VisitDate", Value.str "2023-05-02"),
   ("VisitID", Value.str "B")]

/-- Witness for C8: a two-row collection survives the save-then-load
round trip unchanged. -/
theorem save_then_load_roundtrip_check :
    ∃ f, save_csv_data [rowH1, rowH2] none none = .ok (some f) ∧
      load_csv_data (some f) = [rowH1, rowH2] :=
  save_then_load_roundtrip [rowH1, rowH2] none (by decide) (by decide)
    (by decide) (by decide) (by decide)

/-- C9: saving an empty row collection is a no-op on the destination: an
existing file is left exactly as it was and no file is created when none
exists. -/
theorem save_empty_is_noop (fieldnames : Option (List String)) (dest : Option CsvFile) :
    save_csv_data [] fieldnames dest = .ok dest ∧
    (∀ f : CsvFile, save_csv_data [] fieldnames (some f) = .ok (some f)) ∧
    save_csv_data [] fieldnames none = .ok none := by
  refine ⟨?_, fun f => ?_, ?_⟩ <;> (unfold save_csv_data; rw [if_pos rfl])

end ClinicalDW
